import Mathlib

/-!
Verification of the `cmos_rtc` crate (`src/lib.rs`): a reader for the CMOS
real-time clock.  The hardware ports are modelled by an oracle
`dev : Nat → Nat → Nat` giving, for each data-port read (numbered by a
cursor `s`) and each register address selected on the address port, the
byte the device returns.  Machine `u8` arithmetic is modelled on `Nat`
with `% 256` exactly where the Rust `u8` operations can wrap.  The two
unbounded loops of the source (the update-in-progress busy-wait and the
double-read stability loop) are given explicit fuel; `none` means the
fuel ran out, `some` means the loop exited as in the source.
-/

set_option maxHeartbeats 1000000
set_option maxRecDepth 8000

namespace CMOS

/-- The `Time` struct of `src/lib.rs`: seven `u8` fields, modelled as `Nat`. -/
structure Time where
  second : Nat
  minute : Nat
  hour : Nat
  day : Nat
  month : Nat
  year : Nat
  century : Nat
deriving DecidableEq, Repr

/-- The BCD step applied by `read()` to second, minute, day, month, year and
century: `(b & 0x0F) + ((b / 16) * 10)`, exactly as in the source. -/
def bcd (b : Nat) : Nat := (b &&& 0x0F) + (b / 16) * 10

/-- The BCD block of `ReadRTC::read` (lines 128-142): applied only when bit
`0x04` of register B is clear; the hour keeps its top bit; the century is
converted only when a century register is configured (`cr ≠ 0`). -/
def decodeSample (rb cr : Nat) (t : Time) : Time :=
  if rb &&& 0x04 = 0 then
    { second := bcd t.second
      minute := bcd t.minute
      hour := ((t.hour &&& 0x0F) + ((t.hour &&& 0x70) / 16) * 10) ||| (t.hour &&& 0x80)
      day := bcd t.day
      month := bcd t.month
      year := bcd t.year
      century := if cr = 0 then t.century else bcd t.century }
  else t

/-- The 12-hour to 24-hour conversion of `ReadRTC::read` (lines 144-147). -/
def hour12to24 (rb : Nat) (t : Time) : Time :=
  if rb &&& 0x02 = 0 ∧ t.hour &&& 0x80 ≠ 0 then
    { t with hour := ((t.hour &&& 0x7F) + 12) % 24 }
  else t

/-- Year resolution of `ReadRTC::read` (lines 149-158).  All the additions and
the product `century * 100` are `u8` operations in the source, hence the
`% 256`; `cy / 100 * 100` cannot wrap for a byte-sized `cy`. -/
def resolveYear (cy cr : Nat) (t : Time) : Time :=
  if cr = 0 then
    let y := (t.year + cy / 100 * 100) % 256
    { t with year := if y < cy then (y + 100) % 256 else y }
  else
    { t with year := (t.year + t.century * 100 % 256) % 256 }

/-- One data-port read: the register address that had been selected on the
address port, and the byte the device returned. -/
structure Event where
  addr : Nat
  val : Nat
deriving DecidableEq, Repr

/-- The busy-wait of `ReadRTC::update_time` (line 90) around
`get_update_in_progress_flag` (lines 72-77): select register `0x0A`, read the
data port, loop while bit `0x80` is set.  Returns the cursor after the wait
together with the trace of the polling reads. -/
def waitUpdate (dev : Nat → Nat → Nat) : Nat → Nat → Option (Nat × List Event)
  | 0, _ => none
  | fuel + 1, s =>
    let v := dev s 0x0A
    if v &&& 0x80 = 0 then some (s + 1, [⟨0x0A, v⟩])
    else
      match waitUpdate dev fuel (s + 1) with
      | none => none
      | some (s', tr) => some (s', ⟨0x0A, v⟩ :: tr)

/-- The register reads of `ReadRTC::update_time` (lines 92-104), in source
order: `0x00, 0x02, 0x04, 0x07, 0x08, 0x09`, then the century register when
one is configured, else century `0` without a read. -/
def sampleRegs (dev : Nat → Nat → Nat) (cr s : Nat) : Time × Nat × List Event :=
  let sec := dev s 0x00
  let minu := dev (s + 1) 0x02
  let hr := dev (s + 2) 0x04
  let dy := dev (s + 3) 0x07
  let mo := dev (s + 4) 0x08
  let yr := dev (s + 5) 0x09
  if cr = 0 then
    (⟨sec, minu, hr, dy, mo, yr, 0⟩, s + 6,
      [⟨0x00, sec⟩, ⟨0x02, minu⟩, ⟨0x04, hr⟩, ⟨0x07, dy⟩, ⟨0x08, mo⟩, ⟨0x09, yr⟩])
  else
    let cen := dev (s + 6) cr
    (⟨sec, minu, hr, dy, mo, yr, cen⟩, s + 7,
      [⟨0x00, sec⟩, ⟨0x02, minu⟩, ⟨0x04, hr⟩, ⟨0x07, dy⟩, ⟨0x08, mo⟩, ⟨0x09, yr⟩,
        ⟨cr, cen⟩])

/-- Model of `ReadRTC::update_time` (lines 88-105): busy-wait on the update flag, then
take one full sample.  Returns the sample, the cursor after it, and the full
trace of data-port reads it performed. -/
def update_time (dev : Nat → Nat → Nat) (cr fuelW s : Nat) :
    Option (Time × Nat × List Event) :=
  match waitUpdate dev fuelW s with
  | none => none
  | some (s', polls) =>
    let r := sampleRegs dev cr s'
    some (r.1, r.2.1, polls ++ r.2.2)

/-- The field-for-field comparison of the stability loop (lines 115-122),
in source order. -/
def timeFieldsEq (a b : Time) : Bool :=
  a.second == b.second && a.minute == b.minute && a.hour == b.hour &&
  a.day == b.day && a.month == b.month && a.year == b.year && a.century == b.century

/-- The body of the stability loop of `ReadRTC::read` (lines 112-126):
`last_time = time; time = update_time(); if equal break`. -/
def readAux (dev : Nat → Nat → Nat) (cr fuelW : Nat) :
    Nat → Time → Nat → Option (Time × Nat)
  | 0, _, _ => none
  | fuelL + 1, last, s =>
    match update_time dev cr fuelW s with
    | none => none
    | some (t, s', _) =>
      if timeFieldsEq last t then some (t, s') else readAux dev cr fuelW fuelL t s'

/-- Model of `ReadRTC::read` (lines 108-161): initial sample, stability loop, read of
status register B (`0x0B`), BCD decode, 12→24 hour fix, year resolution. -/
def read (dev : Nat → Nat → Nat) (cy cr fuelW fuelL s0 : Nat) :
    Option (Time × Nat) :=
  match update_time dev cr fuelW s0 with
  | none => none
  | some (t0, s1, _) =>
    match readAux dev cr fuelW fuelL t0 s1 with
    | none => none
    | some (t, s2) =>
      let rb := dev s2 0x0B
      some (resolveYear cy cr (hour12to24 rb (decodeSample rb cr t)), s2 + 1)

/-- The `ReadRTC` struct (lines 52-57): the configuration part.  The two ports
carry no data state; the reads they serve are the oracle `dev`. -/
structure ReadRTC where
  current_year : Nat
  century_register : Nat
deriving DecidableEq, Repr

/-- Method form of `read` on `ReadRTC`: the `&mut self` receiver threaded
explicitly, so that what `read` leaves in the configuration fields is
visible in the result. -/
def ReadRTC.read (dev : Nat → Nat → Nat) (fuelW fuelL : Nat) (rtc : ReadRTC)
    (s : Nat) : Option (Time × ReadRTC × Nat) :=
  match CMOS.read dev rtc.current_year rtc.century_register fuelW fuelL s with
  | none => none
  | some (t, s') => some (t, rtc, s')

/-- Method form of `update_time` on `ReadRTC`, the `&mut self` receiver threaded
explicitly. -/
def ReadRTC.update_time (dev : Nat → Nat → Nat) (fuelW : Nat) (rtc : ReadRTC)
    (s : Nat) : Option (Time × ReadRTC × Nat × List Event) :=
  match CMOS.update_time dev rtc.century_register fuelW s with
  | none => none
  | some (t, s', tr) => some (t, rtc, s', tr)

/-- The result of the `n`-th call to `update_time` (sample and cursor after
it) when the first call starts at cursor `s`; `none` once any wait runs out
of fuel. -/
def sampleSeq (dev : Nat → Nat → Nat) (cr fuelW : Nat) :
    Nat → Nat → Option (Time × Nat)
  | s, 0 =>
    match update_time dev cr fuelW s with
    | none => none
    | some (t, s', _) => some (t, s')
  | s, n + 1 =>
    match update_time dev cr fuelW s with
    | none => none
    | some (_, s', _) => sampleSeq dev cr fuelW s' n

/-- The `n`-th entry of the sample history the stability loop compares:
entry `0` is the sample already in `last_time`, entry `k + 1` is the `k`-th
result of `update_time` from cursor `s` on. -/
def sampleTimeFrom (dev : Nat → Nat → Nat) (cr fuelW s : Nat) (last : Time) :
    Nat → Option Time
  | 0 => some last
  | k + 1 => (sampleSeq dev cr fuelW s k).map Prod.fst

/-- Model of `Ord for Time` (lines 38-49): chained `Ordering::then` over
century, year, month, day, hour, minute, second. -/
def timeCmp (a b : Time) : Ordering :=
  ((((((compare a.century b.century).then (compare a.year b.year)).then
      (compare a.month b.month)).then (compare a.day b.day)).then
      (compare a.hour b.hour)).then (compare a.minute b.minute)).then
      (compare a.second b.second)

/-- Modelled from the spec: the lexicographic strict order over the tuple
(century, year, month, day, hour, minute, second), each field compared
numerically — the order the spec asserts `Ord for Time` implements. -/
def lexLt (a b : Time) : Prop :=
  a.century < b.century ∨ (a.century = b.century ∧
    (a.year < b.year ∨ (a.year = b.year ∧
      (a.month < b.month ∨ (a.month = b.month ∧
        (a.day < b.day ∨ (a.day = b.day ∧
          (a.hour < b.hour ∨ (a.hour = b.hour ∧
            (a.minute < b.minute ∨ (a.minute = b.minute ∧
              a.second < b.second)))))))))))

/-- The hour branch of the BCD block: bit 7 of the result is bit 7 of the
input, and the low seven bits of the result are the packed-BCD decode of the
low seven bits of the input. -/
lemma hourDecode_bits (h : Nat) (hh : h < 256) :
    ((((h &&& 0x0F) + ((h &&& 0x70) / 16) * 10) ||| (h &&& 0x80)) &&& 0x80 = h &&& 0x80)
    ∧ ((((h &&& 0x0F) + ((h &&& 0x70) / 16) * 10) ||| (h &&& 0x80)) &&& 0x7F
        = ((h &&& 0x7F) &&& 0x0F) + ((h &&& 0x7F) >>> 4) * 10) := by
  have key : ∀ h : Nat, h < 256 →
      ((((h &&& 0x0F) + ((h &&& 0x70) / 16) * 10) ||| (h &&& 0x80)) &&& 0x80 = h &&& 0x80)
      ∧ ((((h &&& 0x0F) + ((h &&& 0x70) / 16) * 10) ||| (h &&& 0x80)) &&& 0x7F
          = ((h &&& 0x7F) &&& 0x0F) + ((h &&& 0x7F) >>> 4) * 10) := by decide
  exact key h hh

/-- C1.  When bit `0x04` of register B is clear, the BCD block of `read()`
takes each of second, minute, day, month, year (and century when a century
register is configured) to `(b &&& 0x0F) + (b >>> 4) * 10`; the hour byte is
decoded the same way on its low seven bits while bit `0x80` passes through
unchanged.  When bit `0x04` is set, the block is the identity. -/
theorem C1_bcd_decode (rb cr : Nat) (t : Time) (hh : t.hour < 256) :
    (rb &&& 0x04 = 0 →
      (decodeSample rb cr t).second = (t.second &&& 0x0F) + (t.second >>> 4) * 10 ∧
      (decodeSample rb cr t).minute = (t.minute &&& 0x0F) + (t.minute >>> 4) * 10 ∧
      (decodeSample rb cr t).day = (t.day &&& 0x0F) + (t.day >>> 4) * 10 ∧
      (decodeSample rb cr t).month = (t.month &&& 0x0F) + (t.month >>> 4) * 10 ∧
      (decodeSample rb cr t).year = (t.year &&& 0x0F) + (t.year >>> 4) * 10 ∧
      (decodeSample rb cr t).hour &&& 0x80 = t.hour &&& 0x80 ∧
      (decodeSample rb cr t).hour &&& 0x7F
        = ((t.hour &&& 0x7F) &&& 0x0F) + ((t.hour &&& 0x7F) >>> 4) * 10 ∧
      (cr ≠ 0 →
        (decodeSample rb cr t).century = (t.century &&& 0x0F) + (t.century >>> 4) * 10)) ∧
    (rb &&& 0x04 ≠ 0 → decodeSample rb cr t = t) := by
  have hdiv : ∀ b : Nat, b >>> 4 = b / 16 := by
    intro b
    rw [Nat.shiftRight_eq_div_pow]
  constructor
  · intro h4
    obtain ⟨hb80, hb7F⟩ := hourDecode_bits t.hour hh
    refine ⟨?_, ?_, ?_, ?_, ?_, ?_, ?_, ?_⟩ <;>
      simp [decodeSample, h4, bcd, hdiv, hb80, hb7F]
    intro hcr
    simp [hcr]
  · intro h4
    simp [decodeSample, h4]

/-- Witness for C1 at the raw hour byte `0x92` (PM flag plus BCD 12) and
raw year byte `0x24`. -/
theorem C1_bcd_decode_witness :
    (decodeSample 0 0x32
        { second := 0, minute := 0, hour := 0x92, day := 0, month := 0,
          year := 0x24, century := 0x20 }).year
      = (0x24 &&& 0x0F) + (0x24 >>> 4) * 10 :=
  ((C1_bcd_decode 0 0x32
      { second := 0, minute := 0, hour := 0x92, day := 0, month := 0,
        year := 0x24, century := 0x20 } (by decide)).1 (by decide)).2.2.2.2.1

/-- C2.  When bit `0x02` of register B is clear and the decoded hour has its
top bit set, `read()` replaces the hour by `((hour &&& 0x7F) + 12) % 24`;
decoded hour `12` with the PM bit (byte `0x8C`) maps to `0` and decoded hour
`1` with the PM bit (byte `0x81`) maps to `13`; otherwise the step is the
identity. -/
theorem C2_hour_12_to_24 (rb : Nat) (t : Time) :
    (rb &&& 0x02 = 0 → t.hour &&& 0x80 ≠ 0 →
      hour12to24 rb t = { t with hour := ((t.hour &&& 0x7F) + 12) % 24 }) ∧
    (hour12to24 0
        { second := 0, minute := 0, hour := 0x8C, day := 0, month := 0,
          year := 0, century := 0 }).hour = 0 ∧
    (hour12to24 0
        { second := 0, minute := 0, hour := 0x81, day := 0, month := 0,
          year := 0, century := 0 }).hour = 13 ∧
    (rb &&& 0x02 ≠ 0 ∨ t.hour &&& 0x80 = 0 → hour12to24 rb t = t) := by
  refine ⟨?_, by decide, by decide, ?_⟩
  · intro h2 hpm
    simp [hour12to24, h2, hpm]
  · intro h
    unfold hour12to24
    rw [if_neg]
    rcases h with h | h
    · exact fun hc => h hc.1
    · exact fun hc => hc.2 h

/-- Witness for C2 at register B `0x00` and decoded hour byte `0x85`. -/
theorem C2_hour_12_to_24_witness :
    hour12to24 0
        { second := 0, minute := 0, hour := 0x85, day := 0, month := 0,
          year := 0, century := 0 }
      = { second := 0, minute := 0, hour := ((0x85 &&& 0x7F) + 12) % 24, day := 0,
          month := 0, year := 0, century := 0 } :=
  (C2_hour_12_to_24 0
      { second := 0, minute := 0, hour := 0x85, day := 0, month := 0,
        year := 0, century := 0 }).1 (by decide) (by decide)

/-- C3.  Evaluation of `read()` at the claim's own inputs: century register
`0x32` holding binary `20`, year register holding binary `24`, register B
`0x06` (binary and 24-hour mode).  The returned year is
`(24 + 20 * 100 % 256) % 256 = 232`, not the `2024` the claim requires —
the year field is a single byte and `century * 100` wraps at 256. -/
theorem C3_code_behavior :
    read (fun _ r => if r = 0x0B then 0x06 else if r = 0x09 then 24
            else if r = 0x32 then 20 else 0) 0 0x32 1 1 0
      = some ({ second := 0, minute := 0, hour := 0, day := 0, month := 0,
                year := 232, century := 20 }, 17) := by
  decide

/-- C4.  Evaluation of `read()` with no century register, `current_year = 200`
and raw year byte `0x99` (decoded 99), register B `0x02`.  The claim's
formula gives `99 + 200 = 299` with no further adjustment (299 ≥ 200); the
code wraps the sum to `(99 + 200) % 256 = 43`, finds `43 < 200`, adds 100 and
returns year `143`. -/
theorem C4_code_behavior :
    read (fun _ r => if r = 0x0B then 0x02 else if r = 0x09 then 0x99 else 0)
        200 0 1 1 0
      = some ({ second := 0, minute := 0, hour := 0, day := 0, month := 0,
                year := 143, century := 0 }, 15) := by
  decide

/-- Unfolding a `Time` equality into the seven field equalities. -/
lemma timeEq_iff (a b : Time) :
    a = b ↔ (a.century = b.century ∧ a.year = b.year ∧ a.month = b.month ∧
      a.day = b.day ∧ a.hour = b.hour ∧ a.minute = b.minute ∧ a.second = b.second) := by
  cases a
  cases b
  simp only [Time.mk.injEq]
  tauto

/-- C7.  `Ord for Time` is the lexicographic numeric order over
(century, year, month, day, hour, minute, second): `.lt` means lexicographic
less-than, `.eq` means equality, `.gt` means the reverse lexicographic
less-than, and for every pair exactly one of the three relations holds. -/
theorem C7_time_order (a b : Time) :
    (timeCmp a b = Ordering.lt ↔ lexLt a b) ∧
    (timeCmp a b = Ordering.eq ↔ a = b) ∧
    (timeCmp a b = Ordering.gt ↔ lexLt b a) ∧
    ((lexLt a b ∧ a ≠ b ∧ ¬lexLt b a) ∨ (¬lexLt a b ∧ a = b ∧ ¬lexLt b a) ∨
      (¬lexLt a b ∧ a ≠ b ∧ lexLt b a)) := by
  have hlt : timeCmp a b = Ordering.lt ↔ lexLt a b := by
    simp only [timeCmp, lexLt, Ordering.then_eq_lt, Ordering.then_eq_eq,
      Nat.compare_eq_lt, Nat.compare_eq_eq]
    omega
  have heq : timeCmp a b = Ordering.eq ↔ a = b := by
    rw [timeEq_iff]
    simp only [timeCmp, Ordering.then_eq_eq, Nat.compare_eq_eq]
    omega
  have hgt : timeCmp a b = Ordering.gt ↔ lexLt b a := by
    simp only [timeCmp, lexLt, Ordering.then_eq_gt, Ordering.then_eq_eq,
      Nat.compare_eq_gt, Nat.compare_eq_eq]
    omega
  refine ⟨hlt, heq, hgt, ?_⟩
  cases h3 : timeCmp a b with
  | lt =>
    refine Or.inl ⟨hlt.mp h3, ?_, ?_⟩
    · intro hab
      have hc := heq.mpr hab
      rw [h3] at hc
      exact absurd hc (by decide)
    · intro hba
      have hc := hgt.mpr hba
      rw [h3] at hc
      exact absurd hc (by decide)
  | eq =>
    refine Or.inr (Or.inl ⟨?_, heq.mp h3, ?_⟩)
    · intro hab
      have hc := hlt.mpr hab
      rw [h3] at hc
      exact absurd hc (by decide)
    · intro hba
      have hc := hgt.mpr hba
      rw [h3] at hc
      exact absurd hc (by decide)
  | gt =>
    refine Or.inr (Or.inr ⟨?_, ?_, hgt.mp h3⟩)
    · intro hab
      have hc := hlt.mpr hab
      rw [h3] at hc
      exact absurd hc (by decide)
    · intro hab
      have hc := heq.mpr hab
      rw [h3] at hc
      exact absurd hc (by decide)

/-- The 12→24 hour step never touches the century field. -/
lemma hour12to24_century (rb : Nat) (t : Time) :
    (hour12to24 rb t).century = t.century := by
  unfold hour12to24
  split <;> rfl

/-- With no century register configured, the BCD block leaves the century
field untouched. -/
lemma decodeSample_century0 (rb : Nat) (t : Time) :
    (decodeSample rb 0 t).century = t.century := by
  unfold decodeSample
  split <;> simp

/-- The year-resolution step never touches the century field. -/
lemma resolveYear_century (cy cr : Nat) (t : Time) :
    (resolveYear cy cr t).century = t.century := by
  unfold resolveYear
  split <;> rfl

/-- With no century register configured, the sampled century is `0`. -/
lemma sampleRegs_century0 (dev : Nat → Nat → Nat) (s : Nat) :
    (sampleRegs dev 0 s).1.century = 0 := by
  simp [sampleRegs]

/-- With no century register configured, every sample `update_time` produces
has century `0`. -/
lemma update_time_century0 (dev : Nat → Nat → Nat) (fW s : Nat) (t : Time)
    (s' : Nat) (tr : List Event) (h : update_time dev 0 fW s = some (t, s', tr)) :
    t.century = 0 := by
  unfold update_time at h
  split at h
  · exact absurd h (by simp)
  next s1 polls hw =>
    simp only [Option.some.injEq, Prod.mk.injEq] at h
    rw [← h.1]
    exact sampleRegs_century0 dev s1

/-- With no century register configured, the sample the stability loop
accepts has century `0`. -/
lemma readAux_century0 (dev : Nat → Nat → Nat) (fW : Nat) :
    ∀ fL last s t s', readAux dev 0 fW fL last s = some (t, s') → t.century = 0 := by
  intro fL
  induction fL with
  | zero => intro last s t s' h; exact absurd h (by simp [readAux])
  | succ fL ih =>
    intro last s t s' h
    unfold readAux at h
    cases hu : update_time dev 0 fW s with
    | none => rw [hu] at h; exact absurd h (by simp)
    | some p =>
      obtain ⟨t1, s1, tr1⟩ := p
      rw [hu] at h
      by_cases he : timeFieldsEq last t1
      · simp only [he, if_true, Option.some.injEq, Prod.mk.injEq] at h
        rw [← h.1]
        exact update_time_century0 dev fW s t1 s1 tr1 hu
      · simp only [he, if_false] at h
        exact ih t1 s1 t s' h

/-- C8.  With no century register configured (`century_register = 0`), every
sample has century `0`, the BCD block does not transform the century field,
and the `Time` returned by `read()` has century `0`. -/
theorem C8_century_absent :
    (∀ dev fW s t s' tr, update_time dev 0 fW s = some (t, s', tr) → t.century = 0) ∧
    (∀ rb t, (decodeSample rb 0 t).century = t.century) ∧
    (∀ dev cy fW fL s0 t send, read dev cy 0 fW fL s0 = some (t, send) →
      t.century = 0) := by
  refine ⟨update_time_century0, decodeSample_century0, ?_⟩
  intro dev cy fW fL s0 t send h
  unfold read at h
  split at h
  · exact absurd h (by simp)
  next t0 s1 tr0 h0 =>
    split at h
    · exact absurd h (by simp)
    next tA s2 h1 =>
      simp only [Option.some.injEq, Prod.mk.injEq] at h
      rw [← h.1, resolveYear_century, hour12to24_century, decodeSample_century0]
      exact readAux_century0 dev fW fL t0 s1 tA s2 h1

/-- Witness for C8: the all-zero device, one wait-poll of fuel and one loop
iteration of fuel. -/
theorem C8_century_absent_witness :
    (⟨0, 0, 0, 0, 0, 0, 0⟩ : Time).century = 0 :=
  C8_century_absent.2.2 (fun _ _ => 0) 0 1 1 0 ⟨0, 0, 0, 0, 0, 0, 0⟩ 15 (by decide)

/-- C9.  The configuration held by `ReadRTC` is immutable: a call to `read`
(and to the sampling helper `update_time`) leaves `current_year` and
`century_register` exactly as they were. -/
theorem C9_config_immutable :
    (∀ dev fW fL rtc s t rtc' s',
      ReadRTC.read dev fW fL rtc s = some (t, rtc', s') →
      rtc'.current_year = rtc.current_year ∧
        rtc'.century_register = rtc.century_register) ∧
    (∀ dev fW rtc s t rtc' s' tr,
      ReadRTC.update_time dev fW rtc s = some (t, rtc', s', tr) →
      rtc'.current_year = rtc.current_year ∧
        rtc'.century_register = rtc.century_register) := by
  constructor
  · intro dev fW fL rtc s t rtc' s' h
    unfold ReadRTC.read at h
    split at h
    · exact absurd h (by simp)
    next t1 s1 _ =>
      simp only [Option.some.injEq, Prod.mk.injEq] at h
      rw [← h.2.1]
      exact ⟨rfl, rfl⟩
  · intro dev fW rtc s t rtc' s' tr h
    unfold ReadRTC.update_time at h
    split at h
    · exact absurd h (by simp)
    next t1 s1 tr1 _ =>
      simp only [Option.some.injEq, Prod.mk.injEq] at h
      rw [← h.2.1]
      exact ⟨rfl, rfl⟩

/-- Witness for C9: a concrete reader with `current_year = 7`,
`century_register = 9` run on the all-zero device. -/
theorem C9_config_immutable_witness :
    (⟨7, 9⟩ : ReadRTC).current_year = (⟨7, 9⟩ : ReadRTC).current_year ∧
      (⟨7, 9⟩ : ReadRTC).century_register = (⟨7, 9⟩ : ReadRTC).century_register :=
  C9_config_immutable.1 (fun _ _ => 0) 1 1 ⟨7, 9⟩ 0
    ⟨0, 0, 0, 0, 0, 0, 0⟩ ⟨7, 9⟩ 17 (by decide)

/-- The year field the year-resolution step writes is always a byte. -/
lemma resolveYear_year_lt (cy cr : Nat) (t : Time) :
    (resolveYear cy cr t).year < 256 := by
  unfold resolveYear
  split
  · dsimp only
    split
    · exact Nat.mod_lt _ (by norm_num)
    · exact Nat.mod_lt _ (by norm_num)
  · exact Nat.mod_lt _ (by norm_num)

/-- Any `some` result of `read` is the post-processing chain applied to the
accepted raw sample. -/
lemma read_shape (dev : Nat → Nat → Nat) (cy cr fW fL s0 : Nat) (t : Time)
    (send : Nat) (h : read dev cy cr fW fL s0 = some (t, send)) :
    ∃ rb tA, t = resolveYear cy cr (hour12to24 rb (decodeSample rb cr tA)) := by
  unfold read at h
  split at h
  · exact absurd h (by simp)
  next t0 s1 tr0 h0 =>
    split at h
    · exact absurd h (by simp)
    next tA s2 h1 =>
      simp only [Option.some.injEq, Prod.mk.injEq] at h
      exact ⟨dev s2 0x0B, tA, h.1.symm⟩

/-- C10.  All year arithmetic of `read()` is 8-bit: the returned year is
always below 256, `century * 100` wraps at 256 (decoded century 20 with
2-digit year 24 yields byte 232, not 2024), and the `+100` adjustment also
wraps (`current_year = 200` with 2-digit year 99 yields byte 143, not 299). -/
theorem C10_year_arithmetic_is_8bit :
    (∀ dev cy cr fW fL s0 t send,
      read dev cy cr fW fL s0 = some (t, send) → t.year < 256) ∧
    (resolveYear 0 0x32
        { second := 0, minute := 0, hour := 0, day := 0, month := 0,
          year := 24, century := 20 }).year = 232 ∧
    (resolveYear 200 0
        { second := 0, minute := 0, hour := 0, day := 0, month := 0,
          year := 99, century := 0 }).year = 143 := by
  refine ⟨?_, by decide, by decide⟩
  intro dev cy cr fW fL s0 t send h
  obtain ⟨rb, tA, ht⟩ := read_shape dev cy cr fW fL s0 t send h
  rw [ht]
  exact resolveYear_year_lt cy cr _

/-- Witness for C10: the all-zero device, returned year `0 < 256`. -/
theorem C10_year_arithmetic_is_8bit_witness :
    (⟨0, 0, 0, 0, 0, 0, 0⟩ : Time).year < 256 :=
  C10_year_arithmetic_is_8bit.1 (fun _ _ => 0) 0 0 1 1 0
    ⟨0, 0, 0, 0, 0, 0, 0⟩ 15 (by decide)

/-- Shape of a successful busy-wait: at least one poll, every poll selects
register `0x0A`, every poll but the last sees bit `0x80` set, the last poll
sees it clear. -/
lemma waitUpdate_spec (dev : Nat → Nat → Nat) :
    ∀ fuel s s' tr, waitUpdate dev fuel s = some (s', tr) →
      tr ≠ [] ∧ (∀ e ∈ tr, e.addr = 0x0A) ∧
      (∀ e ∈ tr.dropLast, e.val &&& 0x80 ≠ 0) ∧
      (∃ e, tr.getLast? = some e ∧ e.val &&& 0x80 = 0) := by
  intro fuel
  induction fuel with
  | zero =>
    intro s s' tr h
    exact absurd h (by simp [waitUpdate])
  | succ fuel ih =>
    intro s s' tr h
    unfold waitUpdate at h
    by_cases hv : dev s 0x0A &&& 0x80 = 0
    · simp only [hv, if_true, Option.some.injEq, Prod.mk.injEq] at h
      rw [← h.2]
      exact ⟨by simp, by simp, by simp, ⟨⟨0x0A, dev s 0x0A⟩, by simp, hv⟩⟩
    · simp only [hv, if_false] at h
      split at h
      · exact absurd h (by simp)
      next s1 tr1 hw =>
        simp only [Option.some.injEq, Prod.mk.injEq] at h
        obtain ⟨hfst, hne, haddr, hdrop, hlast⟩ :=
          And.intro h.1 (ih (s + 1) s1 tr1 hw)
        obtain ⟨a, l, rfl⟩ := List.exists_cons_of_ne_nil hne
        rw [← h.2]
        refine ⟨by simp, ?_, ?_, ?_⟩
        · intro e he
          rcases List.mem_cons.mp he with rfl | he
          · rfl
          · exact haddr e he
        · rw [List.dropLast_cons₂]
          intro e he
          rcases List.mem_cons.mp he with rfl | he
          · exact hv
          · exact hdrop e he
        · rw [List.getLast?_cons_cons]
          exact hlast

/-- The addresses of the per-sample register reads, in source order. -/
lemma sampleRegs_addrs (dev : Nat → Nat → Nat) (cr s : Nat) :
    (sampleRegs dev cr s).2.2.map Event.addr
      = (if cr = 0 then [0x00, 0x02, 0x04, 0x07, 0x08, 0x09]
          else [0x00, 0x02, 0x04, 0x07, 0x08, 0x09, cr]) := by
  unfold sampleRegs
  split <;> simp_all

/-- C6.  Every full sample of `update_time` is taken only after the
update-in-progress poll loop has exited: the trace is a nonempty block of
reads of status register `0x0A` — all but the last seeing bit `0x80` set and
the last seeing it clear — followed immediately by the reads of the time
registers `0x00, 0x02, 0x04, 0x07, 0x08, 0x09` (and the configured century
register); no time register is read before the flag is observed clear. -/
theorem C6_no_read_during_update (dev : Nat → Nat → Nat) (cr fW s : Nat)
    (t : Time) (sEnd : Nat) (tr : List Event)
    (h : update_time dev cr fW s = some (t, sEnd, tr)) :
    ∃ polls sMid,
      waitUpdate dev fW s = some (sMid, polls) ∧
      tr = polls ++ (sampleRegs dev cr sMid).2.2 ∧
      t = (sampleRegs dev cr sMid).1 ∧
      sEnd = (sampleRegs dev cr sMid).2.1 ∧
      polls ≠ [] ∧ (∀ e ∈ polls, e.addr = 0x0A) ∧
      (∀ e ∈ polls.dropLast, e.val &&& 0x80 ≠ 0) ∧
      (∃ e, polls.getLast? = some e ∧ e.val &&& 0x80 = 0) ∧
      (sampleRegs dev cr sMid).2.2.map Event.addr
        = (if cr = 0 then [0x00, 0x02, 0x04, 0x07, 0x08, 0x09]
            else [0x00, 0x02, 0x04, 0x07, 0x08, 0x09, cr]) := by
  unfold update_time at h
  split at h
  · exact absurd h (by simp)
  next sMid polls hw =>
    simp only [Option.some.injEq, Prod.mk.injEq] at h
    obtain ⟨hne, haddr, hdrop, hlast⟩ := waitUpdate_spec dev fW s sMid polls hw
    exact ⟨polls, sMid, hw, h.2.2.symm, h.1.symm, h.2.1.symm, hne, haddr, hdrop,
      hlast, sampleRegs_addrs dev cr sMid⟩

/-- Witness for C6: a device whose update flag is set on the first poll and
clear on the second. -/
theorem C6_no_read_during_update_witness :
    ∃ polls sMid,
      waitUpdate (fun s _ => if s = 0 then 0x80 else 0) 2 0 = some (sMid, polls) ∧
      [⟨0x0A, 0x80⟩, ⟨0x0A, 0⟩, ⟨0x00, 0⟩, ⟨0x02, 0⟩, ⟨0x04, 0⟩, ⟨0x07, 0⟩,
          ⟨0x08, 0⟩, ⟨0x09, 0⟩]
        = polls ++ (sampleRegs (fun s _ => if s = 0 then 0x80 else 0) 0 sMid).2.2 ∧
      (⟨0, 0, 0, 0, 0, 0, 0⟩ : Time)
        = (sampleRegs (fun s _ => if s = 0 then 0x80 else 0) 0 sMid).1 ∧
      (8 : Nat) = (sampleRegs (fun s _ => if s = 0 then 0x80 else 0) 0 sMid).2.1 ∧
      polls ≠ [] ∧ (∀ e ∈ polls, e.addr = 0x0A) ∧
      (∀ e ∈ polls.dropLast, e.val &&& 0x80 ≠ 0) ∧
      (∃ e, polls.getLast? = some e ∧ e.val &&& 0x80 = 0) ∧
      (sampleRegs (fun s _ => if s = 0 then 0x80 else 0) 0 sMid).2.2.map Event.addr
        = (if (0 : Nat) = 0 then [0x00, 0x02, 0x04, 0x07, 0x08, 0x09]
            else [0x00, 0x02, 0x04, 0x07, 0x08, 0x09, 0]) :=
  C6_no_read_during_update (fun s _ => if s = 0 then 0x80 else 0) 0 2 0
    ⟨0, 0, 0, 0, 0, 0, 0⟩ 8
    [⟨0x0A, 0x80⟩, ⟨0x0A, 0⟩, ⟨0x00, 0⟩, ⟨0x02, 0⟩, ⟨0x04, 0⟩, ⟨0x07, 0⟩,
      ⟨0x08, 0⟩, ⟨0x09, 0⟩] (by decide)

/-- The source's field-for-field comparison agrees with equality of `Time`. -/
lemma timeFieldsEq_iff (a b : Time) : timeFieldsEq a b = true ↔ a = b := by
  cases a
  cases b
  simp only [timeFieldsEq, Bool.and_eq_true, beq_iff_eq, Time.mk.injEq]
  tauto

/-- First entry of the sample sequence. -/
lemma sampleSeq_zero_of (dev : Nat → Nat → Nat) (cr fW s : Nat) (t1 : Time)
    (s1 : Nat) (tr1 : List Event) (h : update_time dev cr fW s = some (t1, s1, tr1)) :
    sampleSeq dev cr fW s 0 = some (t1, s1) := by
  simp [sampleSeq, h]

/-- Dropping the first sample shifts the sequence to the next cursor. -/
lemma sampleSeq_succ_of (dev : Nat → Nat → Nat) (cr fW s : Nat) (t1 : Time)
    (s1 : Nat) (tr1 : List Event) (h : update_time dev cr fW s = some (t1, s1, tr1))
    (n : Nat) : sampleSeq dev cr fW s (n + 1) = sampleSeq dev cr fW s1 n := by
  simp [sampleSeq, h]

/-- The history seen from cursor `s` with `last` in `last_time` coincides,
one step later, with the history seen from the next cursor with the first
sample in `last_time`. -/
lemma sampleTimeFrom_shift (dev : Nat → Nat → Nat) (cr fW s : Nat) (last t1 : Time)
    (s1 : Nat) (tr1 : List Event) (h : update_time dev cr fW s = some (t1, s1, tr1)) :
    ∀ k, sampleTimeFrom dev cr fW s last (k + 1) = sampleTimeFrom dev cr fW s1 t1 k := by
  intro k
  cases k with
  | zero =>
    simp [sampleTimeFrom, sampleSeq_zero_of dev cr fW s t1 s1 tr1 h]
  | succ k =>
    simp [sampleTimeFrom, sampleSeq_succ_of dev cr fW s t1 s1 tr1 h]

/-- Exit analysis of the stability loop: a successful `readAux` run accepts
sample `n` of its own sequence, that sample repeats its predecessor in the
history (index 0 being `last_time`), and no earlier sample does. -/
lemma readAux_spec (dev : Nat → Nat → Nat) (cr fW : Nat) :
    ∀ fL last s t sEnd, readAux dev cr fW fL last s = some (t, sEnd) →
      ∃ n, sampleSeq dev cr fW s n = some (t, sEnd) ∧
        sampleTimeFrom dev cr fW s last (n + 1) = sampleTimeFrom dev cr fW s last n ∧
        ∀ m, m < n →
          sampleTimeFrom dev cr fW s last (m + 1) ≠ sampleTimeFrom dev cr fW s last m := by
  intro fL
  induction fL with
  | zero =>
    intro last s t sEnd h
    exact absurd h (by simp [readAux])
  | succ fL ih =>
    intro last s t sEnd h
    unfold readAux at h
    split at h
    · exact absurd h (by simp)
    next t1 s1 tr1 hu =>
      by_cases he : timeFieldsEq last t1 = true
      · rw [if_pos he] at h
        simp only [Option.some.injEq, Prod.mk.injEq] at h
        refine ⟨0, ?_, ?_, fun m hm => absurd hm (Nat.not_lt_zero m)⟩
        · rw [sampleSeq_zero_of dev cr fW s t1 s1 tr1 hu, h.1, h.2]
        · rw [sampleTimeFrom_shift dev cr fW s last t1 s1 tr1 hu 0]
          simp [sampleTimeFrom, (timeFieldsEq_iff last t1).mp he]
      · rw [if_neg he] at h
        obtain ⟨n, h1, h2, h3⟩ := ih t1 s1 t sEnd h
        refine ⟨n + 1, ?_, ?_, ?_⟩
        · rw [sampleSeq_succ_of dev cr fW s t1 s1 tr1 hu]
          exact h1
        · rw [sampleTimeFrom_shift dev cr fW s last t1 s1 tr1 hu,
            sampleTimeFrom_shift dev cr fW s last t1 s1 tr1 hu]
          exact h2
        · intro m hm
          cases m with
          | zero =>
            rw [sampleTimeFrom_shift dev cr fW s last t1 s1 tr1 hu 0]
            simp only [sampleTimeFrom]
            intro hc
            exact he ((timeFieldsEq_iff last t1).mpr (Option.some.inj hc).symm)
          | succ m =>
            rw [sampleTimeFrom_shift dev cr fW s last t1 s1 tr1 hu,
              sampleTimeFrom_shift dev cr fW s last t1 s1 tr1 hu]
            exact h3 m (by omega)

/-- With the first sample in hand, the loop history is the global sample
sequence itself. -/
lemma sampleTimeFrom_glob (dev : Nat → Nat → Nat) (cr fW s0 : Nat) (t0 : Time)
    (s1 : Nat) (tr0 : List Event)
    (h : update_time dev cr fW s0 = some (t0, s1, tr0)) :
    ∀ k, sampleTimeFrom dev cr fW s1 t0 k = (sampleSeq dev cr fW s0 k).map Prod.fst := by
  intro k
  cases k with
  | zero =>
    simp [sampleTimeFrom, sampleSeq_zero_of dev cr fW s0 t0 s1 tr0 h]
  | succ k =>
    simp [sampleTimeFrom, sampleSeq_succ_of dev cr fW s0 t0 s1 tr0 h]

/-- C5.  The stability loop of `read()`.  First part: whenever `read`
returns, it accepted sample `n ≥ 1` of the sample sequence, that sample is
field-for-field identical to sample `n - 1`, every earlier consecutive pair
differs, the decode chain is applied to the accepted (later) sample, and the
only read after it is the one of register B.  Second part: if the first two
samples are already identical, one loop iteration of fuel suffices — the
loop exits right there, with no third sample taken. -/
theorem C5_stability_loop :
    (∀ dev cy cr fW fL s0 t send,
      read dev cy cr fW fL s0 = some (t, send) →
      ∃ n tAcc sAcc, 1 ≤ n ∧
        sampleSeq dev cr fW s0 n = some (tAcc, sAcc) ∧
        (sampleSeq dev cr fW s0 n).map Prod.fst
          = (sampleSeq dev cr fW s0 (n - 1)).map Prod.fst ∧
        (∀ m, 1 ≤ m → m < n →
          (sampleSeq dev cr fW s0 m).map Prod.fst
            ≠ (sampleSeq dev cr fW s0 (m - 1)).map Prod.fst) ∧
        t = resolveYear cy cr (hour12to24 (dev sAcc 0x0B)
              (decodeSample (dev sAcc 0x0B) cr tAcc)) ∧
        send = sAcc + 1) ∧
    (∀ dev cy cr fW fL s0 t0 s1 tr0 t1 s2 tr1,
      update_time dev cr fW s0 = some (t0, s1, tr0) →
      update_time dev cr fW s1 = some (t1, s2, tr1) →
      timeFieldsEq t0 t1 = true → 1 ≤ fL →
      read dev cy cr fW fL s0
        = some (resolveYear cy cr (hour12to24 (dev s2 0x0B)
            (decodeSample (dev s2 0x0B) cr t1)), s2 + 1)) := by
  constructor
  · intro dev cy cr fW fL s0 t send h
    unfold read at h
    split at h
    · exact absurd h (by simp)
    next t0 s1 tr0 h0 =>
      split at h
      · exact absurd h (by simp)
      next tAcc s2 h1 =>
        simp only [Option.some.injEq, Prod.mk.injEq] at h
        obtain ⟨n, hs, heq, hmin⟩ := readAux_spec dev cr fW fL t0 s1 tAcc s2 h1
        refine ⟨n + 1, tAcc, s2, by omega, ?_, ?_, ?_, h.1.symm, h.2.symm⟩
        · rw [sampleSeq_succ_of dev cr fW s0 t0 s1 tr0 h0]
          exact hs
        · have g1 := sampleTimeFrom_glob dev cr fW s0 t0 s1 tr0 h0 (n + 1)
          have g2 := sampleTimeFrom_glob dev cr fW s0 t0 s1 tr0 h0 n
          rw [show n + 1 - 1 = n from rfl, ← g1, ← g2]
          exact heq
        · intro m hm1 hm2
          obtain ⟨k, rfl⟩ : ∃ k, m = k + 1 := ⟨m - 1, by omega⟩
          have g1 := sampleTimeFrom_glob dev cr fW s0 t0 s1 tr0 h0 (k + 1)
          have g2 := sampleTimeFrom_glob dev cr fW s0 t0 s1 tr0 h0 k
          rw [show k + 1 - 1 = k from rfl, ← g1, ← g2]
          exact hmin k (by omega)
  · intro dev cy cr fW fL s0 t0 s1 tr0 t1 s2 tr1 h0 h1 he hfL
    obtain ⟨k, rfl⟩ : ∃ k, fL = k + 1 := ⟨fL - 1, by omega⟩
    have hA : readAux dev cr fW (k + 1) t0 s1 = some (t1, s2) := by
      unfold readAux
      simp [h1, he]
    unfold read
    simp [h0, hA]

/-- Witness for C5: the all-zero device — the first two samples coincide, so
the loop accepts the second sample and reads register B right after it. -/
theorem C5_stability_loop_witness :
    (∃ n tAcc sAcc, 1 ≤ n ∧
        sampleSeq (fun _ _ => 0) 0 1 0 n = some (tAcc, sAcc) ∧
        (sampleSeq (fun _ _ => 0) 0 1 0 n).map Prod.fst
          = (sampleSeq (fun _ _ => 0) 0 1 0 (n - 1)).map Prod.fst ∧
        (∀ m, 1 ≤ m → m < n →
          (sampleSeq (fun _ _ => 0) 0 1 0 m).map Prod.fst
            ≠ (sampleSeq (fun _ _ => 0) 0 1 0 (m - 1)).map Prod.fst) ∧
        (⟨0, 0, 0, 0, 0, 0, 0⟩ : Time)
          = resolveYear 0 0 (hour12to24 ((fun _ _ => 0 : Nat → Nat → Nat) sAcc 0x0B)
              (decodeSample ((fun _ _ => 0 : Nat → Nat → Nat) sAcc 0x0B) 0 tAcc)) ∧
        (15 : Nat) = sAcc + 1) ∧
    read (fun _ _ => 0) 0 0 1 1 0
      = some (resolveYear 0 0 (hour12to24 ((fun _ _ => 0 : Nat → Nat → Nat) 14 0x0B)
          (decodeSample ((fun _ _ => 0 : Nat → Nat → Nat) 14 0x0B) 0
            ⟨0, 0, 0, 0, 0, 0, 0⟩)), 14 + 1) :=
  ⟨C5_stability_loop.1 (fun _ _ => 0) 0 0 1 1 0 ⟨0, 0, 0, 0, 0, 0, 0⟩ 15 (by decide),
    C5_stability_loop.2 (fun _ _ => 0) 0 0 1 1 0 ⟨0, 0, 0, 0, 0, 0, 0⟩ 7
      [⟨0x0A, 0⟩, ⟨0x00, 0⟩, ⟨0x02, 0⟩, ⟨0x04, 0⟩, ⟨0x07, 0⟩, ⟨0x08, 0⟩, ⟨0x09, 0⟩]
      ⟨0, 0, 0, 0, 0, 0, 0⟩ 14
      [⟨0x0A, 0⟩, ⟨0x00, 0⟩, ⟨0x02, 0⟩, ⟨0x04, 0⟩, ⟨0x07, 0⟩, ⟨0x08, 0⟩, ⟨0x09, 0⟩]
      (by decide) (by decide) (by decide) (by decide)⟩

end CMOS
